import Mathlib

/-!
Verification of the recommendation candidate-selection / re-ranking pipeline
of the reading-group service.

The Python sources embedded here are:
  * `app/services/recommender.py` — `build_user_query`,
    `select_recruiting_top_k`, `rerank_recruiting_with_genre_bonus`;
  * `app/batch/weekly_batch.py` — `generate_rows`, `generate_from_db`;
  * `scripts/run_weekly_batch.py` — `build_rows`.

Modelling conventions:
  * Python similarity scores (floats produced by the vector index) are
    modelled as elements of an arbitrary linearly ordered commutative ring
    `α` (so `ℚ` is an instance); the claims under study are about list
    shape, membership and ordering, which use only `+`, `-`, `*` and the
    order. Concrete evaluations instantiate `α := ℤ`.
  * Python `dict`s built by comprehensions are modelled as association
    lists in key-insertion order with last-write-wins values
    (`pyDictOfList`); `dict.get` is `pyGet`.
  * `random.shuffle` is modelled by an explicit `shuffle` function
    parameter; theorems assume only that it permutes its input.
  * Optional string fields (`None` in Python) are `Option String`;
    Python `or`-coalescing (where `None` and the empty string/list are
    falsy) is `pyOrOpt` / `pyOrList`; Python `str(...)` on an optional
    string is `pyStr` (rendering `None` as `"None"`).
-/

/-- Python `str(g)` for a value that is either `None` or a string. -/
def pyStr : Option String → String
  | none => "None"
  | some s => s

/-- Python truthiness of an optional string: `None` and `""` are falsy. -/
def falsyStr : Option String → Bool
  | none => true
  | some s => s.isEmpty

/-- Python `a or b` on optional strings. -/
def pyOrOpt (a b : Option String) : Option String :=
  if falsyStr a then b else a

/-- Python `a or b` on lists (an empty list is falsy). -/
def pyOrList {α : Type} (a b : List α) : List α :=
  if a.isEmpty then b else a

/-- Python `d.get(k)` on an association list with unique keys. -/
def pyGet {α : Type} : List (Nat × α) → Nat → Option α
  | [], _ => none
  | (k, v) :: d, key => if k = key then some v else pyGet d key

/-- One step of Python dict construction: overwrite the value if the key is
present (keeping its position), else append the new key. -/
def insertPy {α : Type} (d : List (Nat × α)) (k : Nat) (v : α) : List (Nat × α) :=
  if d.any (fun p => p.1 = k) then
    d.map (fun p => if p.1 = k then (k, v) else p)
  else
    d ++ [(k, v)]

/-- Python dict built from a sequence of key/value pairs: keys in first
occurrence order, values last-write-wins (dict comprehension semantics). -/
def pyDictOfList {α : Type} (l : List (Nat × α)) : List (Nat × α) :=
  l.foldl (fun d p => insertPy d p.1 p.2) []

variable {α : Type} [LinearOrderedRing α]

/-- Insertion step of the stable descending sort by score used to model
Python `sorted(..., key=lambda item: item[1], reverse=True)`: an element
moves past exactly the elements with strictly larger score, so ties keep
their original relative order, as CPython guarantees. -/
def insertDesc (p : Nat × α) : List (Nat × α) → List (Nat × α)
  | [] => [p]
  | q :: qs => if p.2 < q.2 then q :: insertDesc p qs else p :: q :: qs

/-- Stable descending sort of `(meeting_id, score)` pairs by score. -/
def pySortDesc : List (Nat × α) → List (Nat × α)
  | [] => []
  | p :: ps => insertDesc p (pySortDesc ps)

/-- A meeting record as consumed by the selector/re-ranker: the fields the
Python code reads through `.get`, with `Option` for possibly-missing or
`None`-valued entries. -/
structure Meeting where
  id : Nat
  status : Option String
  reading_genre_code : Option String
  reading_genre_id : Option String
  genre_code : Option String
  leader_user_id : Option Nat
deriving DecidableEq

/-- `status_map = {int(m.get("id")): m.get("status") for m in meetings}`. -/
def statusMapOf (meetings : List Meeting) : List (Nat × Option String) :=
  pyDictOfList (meetings.map (fun m => (m.id, m.status)))

/-- `status_map.get(mid) == "RECRUITING"` — `None` (missing key or stored
`None`) compares unequal to the string. -/
def isRecruitingB (smap : List (Nat × Option String)) (mid : Nat) : Bool :=
  match pyGet smap mid with
  | some (some s) => s = "RECRUITING"
  | _ => false

/-- Step 1 of both policies: the score items sorted descending by score and
truncated to the candidate pool. -/
def poolCandidates (scores : List (Nat × α)) (candidate_pool : Nat) : List (Nat × α) :=
  (pySortDesc scores).take candidate_pool

/-- Step 2 of Policy A: candidate ids whose status is `RECRUITING`. -/
def recruitingIdsOf (scores : List (Nat × α)) (meetings : List Meeting)
    (candidate_pool : Nat) : List Nat :=
  ((poolCandidates scores candidate_pool).filter
    (fun p => isRecruitingB (statusMapOf meetings) p.1)).map Prod.fst

/-- The first backfill source of Policy A: `RECRUITING` candidates of the
pool not already selected (always empty, since step 2 already kept every
such candidate — the source keeps the dead branch and so does the model). -/
def remainingOf (scores : List (Nat × α)) (meetings : List Meeting)
    (candidate_pool : Nat) : List Nat :=
  ((poolCandidates scores candidate_pool).filter
    (fun p => isRecruitingB (statusMapOf meetings) p.1 &&
      !((recruitingIdsOf scores meetings candidate_pool).contains p.1))).map Prod.fst

/-- The second backfill source of Policy A: `RECRUITING` meetings of
`status_map` neither selected nor in `remaining`, in dict iteration order
(before the shuffle). -/
def unscoredOf (scores : List (Nat × α)) (meetings : List Meeting)
    (candidate_pool : Nat) : List Nat :=
  ((statusMapOf meetings).filter
    (fun kv => kv.2 == some "RECRUITING" &&
      !((recruitingIdsOf scores meetings candidate_pool).contains kv.1) &&
      !((remainingOf scores meetings candidate_pool).contains kv.1))).map Prod.fst

/-- `select_recruiting_top_k` from `app/services/recommender.py` (Policy A).
`shuffle` stands for `random.shuffle` applied to the unscored backfill
candidates; `scores` is the items of the score dict in insertion order. -/
def select_recruiting_top_k (shuffle : List Nat → List Nat)
    (scores : List (Nat × α)) (meetings : List Meeting)
    (top_k candidate_pool : Nat) : List Nat :=
  let recruiting_ids := recruitingIdsOf scores meetings candidate_pool
  let recruiting_ids :=
    if recruiting_ids.length < top_k then
      let remaining := remainingOf scores meetings candidate_pool
      let remaining :=
        if recruiting_ids.length + remaining.length < top_k then
          let missing := top_k - recruiting_ids.length - remaining.length
          remaining ++ (shuffle (unscoredOf scores meetings candidate_pool)).take missing
        else remaining
      recruiting_ids ++ remaining
    else recruiting_ids
  if top_k < recruiting_ids.length then recruiting_ids.take top_k else recruiting_ids

/-- `meta_map = {int(m.get("id")): m for m in meetings}`. -/
def metaMapOf (meetings : List Meeting) : List (Nat × Meeting) :=
  pyDictOfList (meetings.map (fun m => (m.id, m)))

/-- `meta.get("reading_genre_code") or meta.get("reading_genre_id") or
meta.get("genre_code")` for a meeting record. -/
def genreOf (m : Meeting) : Option String :=
  pyOrOpt m.reading_genre_code (pyOrOpt m.reading_genre_id m.genre_code)

/-- Genre of `meta_map.get(mid, {})`: `None` when the id is absent. -/
def metaGenre (mm : List (Nat × Meeting)) (mid : Nat) : Option String :=
  match pyGet mm mid with
  | none => none
  | some m => genreOf m

/-- `meta_map.get(mid, {}).get("status") == "RECRUITING"`. -/
def isRecruitingMeta (mm : List (Nat × Meeting)) (mid : Nat) : Bool :=
  match pyGet mm mid with
  | none => false
  | some m => m.status == some "RECRUITING"

/-- `{str(g) for g in user_genres if g is not None}` — kept as a list, used
only for membership tests (`str` of a string is itself). -/
def userGenreSet (user_genres : List (Option String)) : List String :=
  user_genres.filterMap (fun g => g)

/-- Python `genre in user_genre_set` where `genre` may be `None`: `None` is
in no set of strings. -/
def genreInSet (genre : Option String) (gset : List String) : Bool :=
  match genre with
  | none => false
  | some s => gset.contains s

/-- The adjusted score computed inside the greedy loop of
`rerank_recruiting_with_genre_bonus`:
`float(sim) + genre_bonus·[genre in set] − counts[str(genre)]·duplicate_penalty`. -/
def adjScore (mm : List (Nat × Meeting)) (gset : List String)
    (genre_bonus duplicate_penalty : α) (counts : String → Nat)
    (p : Nat × α) : α :=
  let genre := metaGenre mm p.1
  let base := p.2 + (if genreInSet genre gset then genre_bonus else 0)
  base - (counts (pyStr genre) : α) * duplicate_penalty

/-- Tail of the Python argmax scan: keep the current best unless a strictly
greater adjusted score appears (`final > best_score`). -/
def bestAux (f : Nat × α → α) : List (Nat × α) → Nat → Nat × (Nat × α) × α →
    Nat × (Nat × α) × α
  | [], _, best => best
  | x :: xs, i, best =>
    if best.2.2 < f x then bestAux f xs (i + 1) (i, x, f x) else bestAux f xs (i + 1) best

/-- The Python loop `for idx, (mid, sim) in enumerate(candidates)` selecting
the first index of maximal adjusted score. `best_score` starts at `-inf`,
so on a non-empty list the first element always becomes the initial best;
on an empty list `best_idx` stays `-1`, modelled as `none`. -/
def argmaxFirst (f : Nat × α → α) : List (Nat × α) → Option (Nat × (Nat × α))
  | [] => none
  | x :: xs =>
    let b := bestAux f xs 1 (0, x, f x)
    some (b.1, b.2.1)

/-- The `while candidates and len(selected) < top_k` greedy loop of
`rerank_recruiting_with_genre_bonus`. Each iteration pops the argmax
candidate, bumps `genre_counts[str(genre)]`, and appends the meeting id.
Returns the selected ids together with the candidates left over (the value
of `candidates` when the loop exits), which the backfill step reads. -/
def greedyPick (mm : List (Nat × Meeting)) (gset : List String)
    (genre_bonus duplicate_penalty : α) :
    Nat → List (Nat × α) → (String → Nat) → List Nat × List (Nat × α)
  | 0, cands, _ => ([], cands)
  | n + 1, cands, counts =>
    match argmaxFirst (adjScore mm gset genre_bonus duplicate_penalty counts) cands with
    | none => ([], cands)
    | some (i, (mid, _)) =>
      let genre := metaGenre mm mid
      let counts2 := fun s => if s = pyStr genre then counts s + 1 else counts s
      let r := greedyPick mm gset genre_bonus duplicate_penalty n (cands.eraseIdx i) counts2
      (mid :: r.1, r.2)

/-- The initial recruiting candidates of Policy B: the score items sorted
descending, truncated to `candidate_pool`, filtered to ids whose meeting
status is `RECRUITING` in `meta_map`. -/
def recruitingCandidates (scores : List (Nat × α)) (meetings : List Meeting)
    (candidate_pool : Nat) : List (Nat × α) :=
  (poolCandidates scores candidate_pool).filter
    (fun p => isRecruitingMeta (metaMapOf meetings) p.1)

/-- `rerank_recruiting_with_genre_bonus` from `app/services/recommender.py`
(Policy B). `scores` is the items of the score dict in insertion order. -/
def rerank_recruiting_with_genre_bonus (scores : List (Nat × α))
    (meetings : List Meeting) (user_genres : List (Option String))
    (top_k candidate_pool : Nat) (genre_bonus duplicate_penalty : α) : List Nat :=
  let mm := metaMapOf meetings
  let gset := userGenreSet user_genres
  let candidates := recruitingCandidates scores meetings candidate_pool
  let r := greedyPick mm gset genre_bonus duplicate_penalty top_k candidates (fun _ => 0)
  let selected := r.1
  let candidates := r.2
  if selected.length < top_k && !candidates.isEmpty then
    selected ++ (candidates.map Prod.fst).take (top_k - selected.length)
  else selected

/-- A persisted recommendation row (`user_id`, `meeting_id`,
`week_start_date`, `rank`). -/
structure Row where
  user_id : Nat
  meeting_id : Nat
  week_start_date : String
  rank : Nat
deriving DecidableEq

/-- A user record as consumed by the batch loops: the fields read through
`user["user_id"]` / `user.get("genre_codes") or user.get("genre_ids")`. -/
structure BatchUser where
  user_id : Nat
  genre_codes : List (Option String)
  genre_ids : List (Option String)
deriving DecidableEq

/-- `user.get("genre_codes") or user.get("genre_ids") or []` (the trailing
`or []` is the value of the chain when both lists are empty). -/
def batchUserGenres (u : BatchUser) : List (Option String) :=
  pyOrList u.genre_codes u.genre_ids

/-- `owner_by_meeting = {m["id"]: m.get("leader_user_id") for m in meetings}`
from `generate_rows`. -/
def ownerMapOf (meetings : List Meeting) : List (Nat × Option Nat) :=
  pyDictOfList (meetings.map (fun m => (m.id, m.leader_user_id)))

/-- `owner_by_meeting.get(mid)` — `None` for a missing key or a stored
`None` (a `null` `leader_user_id`). -/
def ownerGet (meetings : List Meeting) (mid : Nat) : Option Nat :=
  (pyGet (ownerMapOf meetings) mid).join

/-- The per-user score filter of `generate_rows` (weekly_batch.py:121-125):
drop meetings whose `leader_user_id` equals the requesting user's id, keep
those with no recorded owner. -/
def ownerFilteredScores (meetings : List Meeting) (uid : Nat)
    (scores : List (Nat × α)) : List (Nat × α) :=
  scores.filter (fun p =>
    match ownerGet meetings p.1 with
    | none => true
    | some owner => owner ≠ uid)

/-- The keyword parameters accepted by
`rerank_recruiting_with_genre_bonus(scores, meetings, user_genres, *,
top_k, candidate_pool, genre_bonus, duplicate_penalty)`. -/
def rerankKwParams : List String :=
  ["scores", "meetings", "user_genres", "top_k", "candidate_pool",
   "genre_bonus", "duplicate_penalty"]

/-- The keyword arguments `generate_rows` (weekly_batch.py:126-133) supplies
to `rerank_recruiting_with_genre_bonus`. -/
def generateRowsKwArgs : List String :=
  ["user_genres", "user_id", "top_k", "candidate_pool"]

/-- The Python error raised when a call names a keyword parameter the callee
does not declare. -/
def unexpectedKwError : String :=
  "TypeError: rerank_recruiting_with_genre_bonus got an unexpected keyword argument user_id"

/-- A Python call of `rerank_recruiting_with_genre_bonus` with the given
keyword-argument names: `TypeError` when a name is not a declared
parameter, the function value otherwise. -/
def callRerank (kwargs : List String) (scores : List (Nat × α))
    (meetings : List Meeting) (user_genres : List (Option String))
    (top_k candidate_pool : Nat) (genre_bonus duplicate_penalty : α) :
    Except String (List Nat) :=
  if kwargs.all (fun k => rerankKwParams.contains k) then
    Except.ok (rerank_recruiting_with_genre_bonus scores meetings user_genres
      top_k candidate_pool genre_bonus duplicate_penalty)
  else
    Except.error unexpectedKwError

/-- The row block `enumerate(meeting_ids, start=1)` appends for one user. -/
def rowsForUser (uid : Nat) (week_start_date : String) (mids : List Nat) : List Row :=
  (List.enumFrom 1 mids).map (fun p => ⟨uid, p.2, week_start_date, p.1⟩)

/-- The default `genre_bonus = 0.05` of the re-ranker, in the fixed-point
units of the score ring (hundredths). -/
def defaultGenreBonus : Int := 5

/-- The default `duplicate_penalty = 0.07` of the re-ranker, in hundredths. -/
def defaultDuplicatePenalty : Int := 7

/-- The per-user loop of `generate_rows` (weekly_batch.py:118-145): build
the score dict from the search hits, filter out meetings the user leads,
call the re-ranker (with the stray `user_id=` keyword), and append one row
per returned id with 1-based ranks. `search` abstracts
`store.search`/`search_candidates` for the user's embedding vector. -/
def genRowsLoop (meetings : List Meeting) (search : BatchUser → List (Nat × Int))
    (week_start_date : String) (top_k search_k : Nat) :
    List BatchUser → Except String (List Row)
  | [] => Except.ok []
  | u :: us =>
    let scores := pyDictOfList (search u)
    let scores := ownerFilteredScores meetings u.user_id scores
    match callRerank generateRowsKwArgs scores meetings (batchUserGenres u)
        top_k search_k defaultGenreBonus defaultDuplicatePenalty with
    | Except.error e => Except.error e
    | Except.ok meeting_ids =>
      match genRowsLoop meetings search week_start_date top_k search_k us with
      | Except.error e => Except.error e
      | Except.ok rest =>
        Except.ok (rowsForUser u.user_id week_start_date meeting_ids ++ rest)

/-- Timing metadata returned by `generate_rows`: embedding latency for
meetings and for users, in milliseconds. -/
structure Timings where
  embed_meeting_ms : Nat
  embed_user_ms : Nat
deriving DecidableEq

/-- `generate_rows` from `app/batch/weekly_batch.py`. The embedding calls
and the index build are external collaborators: their observable effect on
the rest of the function is the per-user hit list `search` and the measured
latencies, which are taken as parameters. -/
def generate_rows (top_k search_k : Nat) (meetings : List Meeting)
    (users : List BatchUser) (search : BatchUser → List (Nat × Int))
    (week_start_date : String) (embed_meeting_ms embed_user_ms : Nat) :
    Except String (List Row × Timings) :=
  match genRowsLoop meetings search week_start_date top_k search_k users with
  | Except.error e => Except.error e
  | Except.ok rows => Except.ok (rows, ⟨embed_meeting_ms, embed_user_ms⟩)

/-- Observable side effects of a `generate_from_db` run. -/
inductive BatchEffect where
  | fetchMeetings
  | fetchUsers
  | upsertRows (n : Nat)
deriving DecidableEq

/-- The result dict of a successful `generate_from_db` run. -/
structure GenResult where
  rows : List Row
  users : Nat
  inserted : Nat
  timings : Timings
deriving DecidableEq

/-- `generate_from_db` from `app/batch/weekly_batch.py`, with an explicit
trace of the side effects performed (fetches and the upsert). The repo
fetches are abstracted as the already-normalized record lists they return;
`upsertCount` abstracts the row count reported by
`repo.upsert_recommendations`. The `search_k < top_k` guard is the first
statement of the function, before the repo and session are touched. -/
def generate_from_db (top_k search_k : Nat) (fetchedMeetings : List Meeting)
    (fetchedUsers : List BatchUser) (search : BatchUser → List (Nat × Int))
    (week_start_date : String) (embed_meeting_ms embed_user_ms : Nat)
    (persist : Bool) (upsertCount : List Row → Nat) :
    Except String GenResult × List BatchEffect :=
  if search_k < top_k then
    (Except.error "search_k must be >= top_k", [])
  else
    let effects := [BatchEffect.fetchMeetings, BatchEffect.fetchUsers]
    if fetchedMeetings.isEmpty || fetchedUsers.isEmpty then
      (Except.error "meetings or users not available", effects)
    else
      match generate_rows top_k search_k fetchedMeetings fetchedUsers search
          week_start_date embed_meeting_ms embed_user_ms with
      | Except.error e => (Except.error e, effects)
      | Except.ok (rows, timings) =>
        if persist then
          (Except.ok ⟨rows, fetchedUsers.length, upsertCount rows, timings⟩,
           effects ++ [BatchEffect.upsertRows rows.length])
        else
          (Except.ok ⟨rows, fetchedUsers.length, 0, timings⟩, effects)

/-- `build_rows` from `scripts/run_weekly_batch.py`: per user, build the
score dict from the search hits, run Policy A, and append one row per
returned id with 1-based ranks; every row is stamped with the single
`week_start().isoformat()` computed before the loop. -/
def build_rows (shuffle : List Nat → List Nat) (meetings : List Meeting)
    (users : List BatchUser) (search : BatchUser → List (Nat × Int))
    (start_date : String) (top_k search_k : Nat) : List Row :=
  users.flatMap (fun u =>
    let scores := pyDictOfList (search u)
    let meeting_ids := select_recruiting_top_k shuffle scores meetings top_k search_k
    rowsForUser u.user_id start_date meeting_ids)

/-- A user profile record as consumed by `build_user_query`, with all the
alias keys the function probes. Multi-valued code lists are modelled over
an arbitrary linear order (the claim assumes the elements are pairwise
comparable); Python renders them with `str`, modelled by `reprCode`. -/
structure UserProfile (β : Type) where
  reading_volume_code : Option String
  reading_volume_id : Option String
  volume_code : Option String
  purpose_codes : List β
  purpose_ids : List β
  reading_purpose_codes : List β
  genre_codes : List β
  genre_ids : List β
  reading_genre_codes : List β

/-- Effective volume value: `user.get("reading_volume_code") or
user.get("reading_volume_id") or user.get("volume_code")`. -/
def effVolume {β : Type} (u : UserProfile β) : Option String :=
  pyOrOpt u.reading_volume_code (pyOrOpt u.reading_volume_id u.volume_code)

/-- Effective purpose list: `user.get("purpose_codes") or
user.get("purpose_ids") or user.get("reading_purpose_codes") or []`. -/
def effPurposes {β : Type} (u : UserProfile β) : List β :=
  pyOrList u.purpose_codes (pyOrList u.purpose_ids u.reading_purpose_codes)

/-- Effective genre list: `user.get("genre_codes") or user.get("genre_ids")
or user.get("reading_genre_codes") or []`. -/
def effGenres {β : Type} (u : UserProfile β) : List β :=
  pyOrList u.genre_codes (pyOrList u.genre_ids u.reading_genre_codes)

/-- Insertion step of the stable ascending sort modelling Python
`sorted(...)`: an element moves past exactly the strictly smaller ones. -/
def insAsc {β : Type} [LinearOrder β] (x : β) : List β → List β
  | [] => [x]
  | y :: ys => if y < x then y :: insAsc x ys else x :: y :: ys

/-- Python `sorted(l)` (stable ascending sort). -/
def pySortAsc {β : Type} [LinearOrder β] : List β → List β
  | [] => []
  | x :: xs => insAsc x (pySortAsc xs)

/-- Python `sep.join(strings)`. -/
def joinSep (sep : String) : List String → String
  | [] => ""
  | [s] => s
  | s :: rest => s ++ sep ++ joinSep sep rest

/-- `build_user_query` from `app/services/recommender.py`: reading volume,
sorted purpose codes and sorted genre codes rendered into one query string.
`reprCode` is Python `str` on the code values; `or` fallbacks to `없음`
fire exactly on the empty joined string. -/
def build_user_query {β : Type} [LinearOrder β] (reprCode : β → String)
    (u : UserProfile β) : String :=
  let volume := effVolume u
  let purposes := effPurposes u
  let genres := effGenres u
  let purpose_text := joinSep ", " ((pySortAsc purposes).map reprCode)
  let genre_text := joinSep ", " ((pySortAsc genres).map reprCode)
  ("월 독서량 " ++ pyStr volume ++ " 수준. " ++
    "목적: " ++ (if purpose_text.isEmpty then "없음" else purpose_text) ++ ". " ++
    "선호 장르: " ++ (if genre_text.isEmpty then "없음" else genre_text) ++ ".").trim

example :
    rerank_recruiting_with_genre_bonus [(1, (90 : Int)), (2, 85), (3, 95)]
      [⟨1, some "RECRUITING", some "A", none, none, none⟩,
       ⟨2, some "RECRUITING", some "B", none, none, none⟩,
       ⟨3, some "FINISHED", some "A", none, none, none⟩]
      [some "B"] 2 20 10 7 = [2, 1] := by
  decide

/-! ### Basic lemmas about the Python-semantics helpers -/

theorem insertDesc_perm (p : Nat × α) :
    ∀ l : List (Nat × α), List.Perm (insertDesc p l) (p :: l)
  | [] => List.Perm.refl _
  | q :: qs => by
    simp only [insertDesc]
    split
    · exact ((insertDesc_perm p qs).cons q).trans (List.Perm.swap p q qs)
    · exact List.Perm.refl _

theorem pySortDesc_perm : ∀ l : List (Nat × α), List.Perm (pySortDesc l) l
  | [] => List.Perm.refl _
  | p :: ps => (insertDesc_perm p (pySortDesc ps)).trans ((pySortDesc_perm ps).cons p)

theorem mem_poolCandidates {scores : List (Nat × α)} {cp : Nat} {p : Nat × α}
    (h : p ∈ poolCandidates scores cp) : p ∈ scores :=
  (pySortDesc_perm scores).mem_iff.mp (List.mem_of_mem_take h)

theorem poolCandidates_keys_nodup {scores : List (Nat × α)} {cp : Nat}
    (h : (scores.map Prod.fst).Nodup) :
    ((poolCandidates scores cp).map Prod.fst).Nodup :=
  (((List.take_sublist cp (pySortDesc scores)).map Prod.fst).nodup
    (((pySortDesc_perm scores).map Prod.fst).nodup_iff.mpr h))

theorem pyGet_mem {β : Type} {v : β} :
    ∀ {d : List (Nat × β)} {k : Nat}, pyGet d k = some v → (k, v) ∈ d
  | [], _, h => by simp [pyGet] at h
  | (k', v') :: d, k, h => by
    by_cases hk : k' = k
    · subst hk
      simp [pyGet] at h
      simp [h]
    · simp [pyGet, hk] at h
      exact List.mem_cons_of_mem _ (pyGet_mem h)

theorem pyGet_of_mem_nodup {β : Type} :
    ∀ {d : List (Nat × β)} {k : Nat} {v : β},
      (d.map Prod.fst).Nodup → (k, v) ∈ d → pyGet d k = some v
  | [], _, _, _, hm => by simp at hm
  | (k', v') :: d, k, v, hn, hm => by
    have hn' : k' ∉ d.map Prod.fst ∧ (d.map Prod.fst).Nodup := by
      simpa [List.nodup_cons] using hn
    rcases List.mem_cons.mp hm with h | h
    · cases h
      simp [pyGet]
    · have hk : k' ≠ k := by
        rintro rfl
        exact hn'.1 (List.mem_map.mpr ⟨(k', v), h, rfl⟩)
      simp only [pyGet, if_neg hk]
      exact pyGet_of_mem_nodup hn'.2 h

theorem pyGet_some_of_mem_keys {β : Type} :
    ∀ {d : List (Nat × β)} {k : Nat}, k ∈ d.map Prod.fst → ∃ v, pyGet d k = some v
  | [], _, h => by simp at h
  | (k', v') :: d, k, h => by
    by_cases hk : k' = k
    · exact ⟨v', by simp [pyGet, hk]⟩
    · simp only [pyGet, if_neg hk]
      refine pyGet_some_of_mem_keys ?_
      rcases List.mem_map.mp h with ⟨p, hp, hfst⟩
      rcases List.mem_cons.mp hp with h1 | h1
      · exact absurd (by rw [h1] at hfst; exact hfst) hk
      · exact List.mem_map.mpr ⟨p, h1, hfst⟩

theorem mem_insertPy {β : Type} {d : List (Nat × β)} {k : Nat} {v : β} {q : Nat × β}
    (h : q ∈ insertPy d k v) : q ∈ d ∨ q = (k, v) := by
  unfold insertPy at h
  split at h
  · rcases List.mem_map.mp h with ⟨p, hp, heq⟩
    by_cases hpk : p.1 = k
    · right
      rw [if_pos hpk] at heq
      exact heq.symm
    · left
      rw [if_neg hpk] at heq
      exact heq ▸ hp
  · rcases List.mem_append.mp h with h1 | h1
    · exact Or.inl h1
    · exact Or.inr (by simpa using h1)

theorem pyDictOfList_mem {β : Type} {l : List (Nat × β)} {q : Nat × β}
    (h : q ∈ pyDictOfList l) : q ∈ l := by
  suffices H : ∀ (l acc : List (Nat × β)) (q : Nat × β),
      q ∈ l.foldl (fun d p => insertPy d p.1 p.2) acc → q ∈ acc ∨ q ∈ l by
    rcases H l [] q h with h1 | h1
    · simp at h1
    · exact h1
  intro l
  induction l with
  | nil => intro acc q h; exact Or.inl h
  | cons p l ih =>
    intro acc q h
    rcases ih (insertPy acc p.1 p.2) q h with h1 | h1
    · rcases mem_insertPy h1 with h2 | h2
      · exact Or.inl h2
      · exact Or.inr (by simp [h2])
    · exact Or.inr (List.mem_cons_of_mem _ h1)

theorem insertPy_keys_nodup {β : Type} {d : List (Nat × β)} {k : Nat} {v : β}
    (h : (d.map Prod.fst).Nodup) : ((insertPy d k v).map Prod.fst).Nodup := by
  unfold insertPy
  split
  · have heq : (d.map (fun p => if p.1 = k then (k, v) else p)).map Prod.fst
        = d.map Prod.fst := by
      rw [List.map_map]
      refine List.map_congr_left ?_
      intro p _
      by_cases hp : p.1 = k <;> simp [hp]
    rw [heq]
    exact h
  · rename_i hnone
    rw [List.map_append, List.nodup_append]
    refine ⟨h, by simp, ?_⟩
    intro a ha hb
    have hak : a = k := by simpa using hb
    subst hak
    rcases List.mem_map.mp ha with ⟨p, hp, hfst⟩
    exact hnone (List.any_eq_true.mpr ⟨p, hp, by simp [hfst]⟩)

theorem pyDictOfList_keys_nodup {β : Type} (l : List (Nat × β)) :
    ((pyDictOfList l).map Prod.fst).Nodup := by
  suffices H : ∀ (l acc : List (Nat × β)), (acc.map Prod.fst).Nodup →
      ((l.foldl (fun d p => insertPy d p.1 p.2) acc).map Prod.fst).Nodup from
    H l [] (by simp)
  intro l
  induction l with
  | nil => intro acc h; exact h
  | cons p l ih => intro acc h; exact ih _ (insertPy_keys_nodup h)

theorem pyDictOfList_eq_self {β : Type} {l : List (Nat × β)}
    (h : (l.map Prod.fst).Nodup) : pyDictOfList l = l := by
  suffices H : ∀ (l acc : List (Nat × β)),
      ((acc ++ l).map Prod.fst).Nodup →
      l.foldl (fun d p => insertPy d p.1 p.2) acc = acc ++ l by
    simpa using H l [] (by simpa using h)
  intro l
  induction l with
  | nil => intro acc _; simp
  | cons p l ih =>
    intro acc h
    have hdisj : (acc.map Prod.fst).Disjoint ((p :: l).map Prod.fst) := by
      rw [List.map_append] at h
      exact (List.nodup_append.mp h).2.2
    have hstep : insertPy acc p.1 p.2 = acc ++ [p] := by
      unfold insertPy
      have hnot : ¬ acc.any (fun q => q.1 = p.1) = true := by
        intro hany
        rcases List.any_eq_true.mp hany with ⟨q, hq, hqeq⟩
        have hq1 : q.1 = p.1 := by simpa using hqeq
        refine @hdisj p.1 ?_ ?_
        · exact List.mem_map.mpr ⟨q, hq, hq1⟩
        · simp
      simp [hnot]
    simp only [List.foldl_cons]
    rw [hstep, ih (acc ++ [p]) (by simpa using h)]
    simp


/-! ### Lemmas about the greedy re-rank loop -/

theorem bestAux_getElem (f : Nat × α → α) :
    ∀ (xs : List (Nat × α)) (i : Nat) (best : Nat × (Nat × α) × α)
      (full : List (Nat × α)), full.drop i = xs → full[best.1]? = some best.2.1 →
      full[(bestAux f xs i best).1]? = some (bestAux f xs i best).2.1
  | [], _, _, _, _, hb => hb
  | x :: xs, i, best, full, hd, hb => by
    have hfx : full[i]? = some x := by
      have h0 : (full.drop i)[0]? = some x := by rw [hd]; simp
      rw [List.getElem?_drop] at h0
      simpa using h0
    have hd' : full.drop (i + 1) = xs := by
      have h1 := congrArg (List.drop 1) hd
      rw [List.drop_drop] at h1
      simpa using h1
    simp only [bestAux]
    split
    · exact bestAux_getElem f xs (i + 1) (i, x, f x) full hd' hfx
    · exact bestAux_getElem f xs (i + 1) best full hd' hb

theorem argmaxFirst_getElem {f : Nat × α → α} {l : List (Nat × α)} {i : Nat}
    {x : Nat × α} (h : argmaxFirst f l = some (i, x)) : l[i]? = some x := by
  cases l with
  | nil => simp [argmaxFirst] at h
  | cons y ys =>
    have hb := bestAux_getElem f ys 1 (0, y, f y) (y :: ys) rfl (by simp)
    simp only [argmaxFirst, Option.some.injEq] at h
    injection h with h1 h2
    rw [← h1, ← h2]
    exact hb

theorem argmaxFirst_eq_none_iff {f : Nat × α → α} {l : List (Nat × α)} :
    argmaxFirst f l = none ↔ l = [] := by
  cases l <;> simp [argmaxFirst]

theorem cons_eraseIdx_perm {γ : Type} {l : List γ} {i : Nat} {x : γ}
    (h : l[i]? = some x) : List.Perm (x :: l.eraseIdx i) l := by
  rcases List.getElem?_eq_some_iff.mp h with ⟨hi, hx⟩
  rw [List.eraseIdx_eq_take_drop_succ]
  conv_rhs => rw [← List.take_append_drop i l, List.drop_eq_getElem_cons hi, hx]
  exact List.perm_middle.symm

theorem greedyPick_perm (mm : List (Nat × Meeting)) (gset : List String)
    (gb dp : α) : ∀ (n : Nat) (cands : List (Nat × α)) (counts : String → Nat),
    List.Perm ((greedyPick mm gset gb dp n cands counts).1 ++
      ((greedyPick mm gset gb dp n cands counts).2.map Prod.fst))
      (cands.map Prod.fst)
  | 0, cands, _ => by simp [greedyPick]
  | n + 1, cands, counts => by
    cases hmatch : argmaxFirst (adjScore mm gset gb dp counts) cands with
    | none => simp [greedyPick, hmatch]
    | some ix =>
      obtain ⟨i, mid, s⟩ := ix
      have hget := argmaxFirst_getElem hmatch
      have hperm := (cons_eraseIdx_perm hget).map Prod.fst
      have ih := greedyPick_perm mm gset gb dp n (cands.eraseIdx i)
        (fun t => if t = pyStr (metaGenre mm mid) then counts t + 1 else counts t)
      simp only [greedyPick, hmatch, List.map_cons] at hperm ⊢
      rw [List.cons_append]
      exact (ih.cons mid).trans hperm

theorem greedyPick_sel_length (mm : List (Nat × Meeting)) (gset : List String)
    (gb dp : α) : ∀ (n : Nat) (cands : List (Nat × α)) (counts : String → Nat),
    (greedyPick mm gset gb dp n cands counts).1.length = min n cands.length
  | 0, cands, _ => by simp [greedyPick]
  | n + 1, cands, counts => by
    cases hmatch : argmaxFirst (adjScore mm gset gb dp counts) cands with
    | none =>
      rw [argmaxFirst_eq_none_iff.mp hmatch]
      simp [greedyPick, argmaxFirst]
    | some ix =>
      obtain ⟨i, mid, s⟩ := ix
      have hget := argmaxFirst_getElem hmatch
      have hi : i < cands.length := (List.getElem?_eq_some_iff.mp hget).1
      have ih := greedyPick_sel_length mm gset gb dp n (cands.eraseIdx i)
        (fun t => if t = pyStr (metaGenre mm mid) then counts t + 1 else counts t)
      simp only [greedyPick, hmatch, List.length_cons, ih,
        List.length_eraseIdx_of_lt hi]
      omega

/-- The backfill branch at the end of `rerank_recruiting_with_genre_bonus`
is dead code: the greedy loop only exits short of `top_k` when the
candidate list is exhausted, so the re-ranker always returns exactly the
greedy selection. -/
theorem rerank_eq_greedy_sel (scores : List (Nat × α)) (meetings : List Meeting)
    (user_genres : List (Option String)) (top_k candidate_pool : Nat)
    (genre_bonus duplicate_penalty : α) :
    rerank_recruiting_with_genre_bonus scores meetings user_genres top_k
      candidate_pool genre_bonus duplicate_penalty =
    (greedyPick (metaMapOf meetings) (userGenreSet user_genres) genre_bonus
      duplicate_penalty top_k (recruitingCandidates scores meetings candidate_pool)
      (fun _ => 0)).1 := by
  simp only [rerank_recruiting_with_genre_bonus]
  set cands := recruitingCandidates scores meetings candidate_pool with hcands
  set r := greedyPick (metaMapOf meetings) (userGenreSet user_genres) genre_bonus
    duplicate_penalty top_k cands (fun _ => 0) with hr
  have hlen : r.1.length = min top_k cands.length := by
    rw [hr]
    exact greedyPick_sel_length _ _ _ _ _ _ _
  have hsum : r.1.length + r.2.length = cands.length := by
    have hp := (greedyPick_perm (metaMapOf meetings) (userGenreSet user_genres)
      genre_bonus duplicate_penalty top_k cands (fun _ => 0)).length_eq
    rw [← hr] at hp
    simpa using hp
  by_cases hc : (decide (r.1.length < top_k) && !r.2.isEmpty) = true
  · have hc' : r.1.length < top_k ∧ r.2.isEmpty = false := by simpa using hc
    obtain ⟨h1', h2⟩ := hc'
    have hsel : r.1.length = cands.length := by
      rw [Nat.min_def] at hlen
      split at hlen <;> omega
    have h20 : r.2.length = 0 := by omega
    have hEmpty : r.2.isEmpty = true := by
      rw [List.isEmpty_iff]
      exact List.length_eq_zero.mp h20
    rw [hEmpty] at h2
    simp at h2
  · rw [Bool.not_eq_true] at hc
    simp [hc]


/-! ### Lemmas about Policy A -/

theorem recruitingCandidates_keys_nodup {scores : List (Nat × α)}
    {meetings : List Meeting} {cp : Nat} (h : (scores.map Prod.fst).Nodup) :
    ((recruitingCandidates scores meetings cp).map Prod.fst).Nodup :=
  ((List.filter_sublist _).map Prod.fst).nodup (poolCandidates_keys_nodup h)

theorem isRecruitingB_spec {meetings : List Meeting} {mid : Nat}
    (h : isRecruitingB (statusMapOf meetings) mid = true) :
    ∃ m ∈ meetings, m.id = mid ∧ m.status = some "RECRUITING" := by
  unfold isRecruitingB at h
  cases hg : pyGet (statusMapOf meetings) mid with
  | none => rw [hg] at h; simp at h
  | some st =>
    cases st with
    | none => rw [hg] at h; simp at h
    | some s =>
      rw [hg] at h
      have hs : s = "RECRUITING" := by simpa using h
      have hget : (mid, some s) ∈ statusMapOf meetings := pyGet_mem hg
      unfold statusMapOf at hget
      have hmem : (mid, some s) ∈ meetings.map (fun m => (m.id, m.status)) :=
        pyDictOfList_mem hget
      rcases List.mem_map.mp hmem with ⟨m, hm, heq⟩
      injection heq with e1 e2
      exact ⟨m, hm, e1, by rw [e2, hs]⟩

theorem isRecruitingMeta_spec {meetings : List Meeting} {mid : Nat}
    (h : isRecruitingMeta (metaMapOf meetings) mid = true) :
    ∃ m ∈ meetings, m.id = mid ∧ m.status = some "RECRUITING" := by
  unfold isRecruitingMeta at h
  cases hg : pyGet (metaMapOf meetings) mid with
  | none => rw [hg] at h; simp at h
  | some m0 =>
    rw [hg] at h
    have hst : m0.status = some "RECRUITING" := by simpa using h
    have hget : (mid, m0) ∈ metaMapOf meetings := pyGet_mem hg
    unfold metaMapOf at hget
    have hmem : (mid, m0) ∈ meetings.map (fun m => (m.id, m)) := pyDictOfList_mem hget
    rcases List.mem_map.mp hmem with ⟨m, hm, heq⟩
    injection heq with e1 e2
    exact ⟨m, hm, e1, by rw [e2, hst]⟩

theorem mem_recruitingIdsOf {scores : List (Nat × α)} {meetings : List Meeting}
    {cp mid : Nat} :
    mid ∈ recruitingIdsOf scores meetings cp ↔
      (∃ s, (mid, s) ∈ poolCandidates scores cp) ∧
        isRecruitingB (statusMapOf meetings) mid = true := by
  unfold recruitingIdsOf
  constructor
  · intro h
    rcases List.mem_map.mp h with ⟨p, hp, hfst⟩
    rcases List.mem_filter.mp hp with ⟨hp1, hp2⟩
    subst hfst
    exact ⟨⟨p.2, hp1⟩, hp2⟩
  · rintro ⟨⟨s, hs⟩, hrec⟩
    exact List.mem_map.mpr ⟨(mid, s), List.mem_filter.mpr ⟨hs, hrec⟩, rfl⟩

theorem recruitingIdsOf_nodup {scores : List (Nat × α)} {meetings : List Meeting}
    {cp : Nat} (h : (scores.map Prod.fst).Nodup) :
    (recruitingIdsOf scores meetings cp).Nodup :=
  ((List.filter_sublist _).map Prod.fst).nodup (poolCandidates_keys_nodup h)

theorem remainingOf_eq_nil (scores : List (Nat × α)) (meetings : List Meeting)
    (cp : Nat) : remainingOf scores meetings cp = [] := by
  unfold remainingOf
  rw [List.map_eq_nil_iff, List.filter_eq_nil_iff]
  intro p hp hcond
  have h1 : isRecruitingB (statusMapOf meetings) p.1 = true ∧
      ¬ p.1 ∈ recruitingIdsOf scores meetings cp := by simpa using hcond
  exact h1.2 (mem_recruitingIdsOf.mpr ⟨⟨p.2, hp⟩, h1.1⟩)

theorem mem_unscoredOf {scores : List (Nat × α)} {meetings : List Meeting}
    {cp mid : Nat} (h : mid ∈ unscoredOf scores meetings cp) :
    (∃ m ∈ meetings, m.id = mid ∧ m.status = some "RECRUITING") ∧
      mid ∉ recruitingIdsOf scores meetings cp := by
  unfold unscoredOf at h
  rcases List.mem_map.mp h with ⟨kv, hkv, hfst⟩
  rcases List.mem_filter.mp hkv with ⟨hmem, hcond⟩
  obtain ⟨k1, k2⟩ := kv
  simp only at hfst
  subst hfst
  have hc : k2 = some "RECRUITING" ∧ k1 ∉ recruitingIdsOf scores meetings cp := by
    have hcond' := hcond
    simp only [Bool.and_eq_true, beq_iff_eq, Bool.not_eq_true'] at hcond'
    exact ⟨hcond'.1.1, by
      have := hcond'.1.2
      simpa using this⟩
  unfold statusMapOf at hmem
  have hmem2 : (k1, k2) ∈ meetings.map (fun m => (m.id, m.status)) :=
    pyDictOfList_mem hmem
  rcases List.mem_map.mp hmem2 with ⟨m, hm, heq⟩
  injection heq with e1 e2
  exact ⟨⟨m, hm, e1, by rw [e2, hc.1]⟩, hc.2⟩

theorem statusMapOf_keys_nodup (meetings : List Meeting) :
    ((statusMapOf meetings).map Prod.fst).Nodup := by
  unfold statusMapOf
  exact pyDictOfList_keys_nodup _

theorem unscoredOf_nodup (scores : List (Nat × α)) (meetings : List Meeting)
    (cp : Nat) : (unscoredOf scores meetings cp).Nodup :=
  ((List.filter_sublist _).map Prod.fst).nodup (statusMapOf_keys_nodup meetings)

theorem statusMapOf_eq_of_nodup {meetings : List Meeting}
    (h : (meetings.map Meeting.id).Nodup) :
    statusMapOf meetings = meetings.map (fun m => (m.id, m.status)) := by
  unfold statusMapOf
  apply pyDictOfList_eq_self
  rw [List.map_map]
  exact h

theorem unscoredOf_eq (scores : List (Nat × α)) (meetings : List Meeting) (cp : Nat) :
    unscoredOf scores meetings cp =
      ((statusMapOf meetings).filter
        (fun kv => kv.2 == some "RECRUITING" &&
          !((recruitingIdsOf scores meetings cp).contains kv.1))).map Prod.fst := by
  unfold unscoredOf
  congr 1
  apply List.filter_congr
  intro kv _
  rw [remainingOf_eq_nil]
  cases hA : (kv.2 == some "RECRUITING") <;>
    cases hB : ((recruitingIdsOf scores meetings cp).contains kv.1) <;>
      simp [hA, hB]

/-- Counting argument behind the backfill guarantee: the `RECRUITING`
universe is covered by the already selected ids and the unscored pool. -/
theorem recruiting_count_le (scores : List (Nat × α)) (meetings : List Meeting)
    (cp : Nat) (hids : (meetings.map Meeting.id).Nodup) :
    (meetings.filter (fun m => m.status == some "RECRUITING")).length ≤
      (recruitingIdsOf scores meetings cp).length +
        (unscoredOf scores meetings cp).length := by
  set r0 := recruitingIdsOf scores meetings cp with hr0
  set contcond : Nat × Option String → Bool := fun kv => r0.contains kv.1 with hcont
  set recUniv := (statusMapOf meetings).filter
    (fun kv => kv.2 == some "RECRUITING") with hrecUniv
  have hUnivLen : recUniv.length =
      (meetings.filter (fun m => m.status == some "RECRUITING")).length := by
    rw [hrecUniv, statusMapOf_eq_of_nodup hids, List.filter_map]
    rw [List.length_map]
    rfl
  have hsplit := @List.length_eq_length_filter_add _ recUniv contcond
  have hIn : (recUniv.filter contcond).length ≤ r0.length := by
    have hnodup : ((recUniv.filter contcond).map Prod.fst).Nodup := by
      refine ((List.filter_sublist _).map Prod.fst).nodup ?_
      exact ((List.filter_sublist _).map Prod.fst).nodup (statusMapOf_keys_nodup meetings)
    have hsub : ((recUniv.filter contcond).map Prod.fst) ⊆ r0 := by
      intro k hk
      rcases List.mem_map.mp hk with ⟨kv, hkv, hfst⟩
      have hc := (List.mem_filter.mp hkv).2
      rw [hcont] at hc
      simp only [hfst] at hc
      simpa using hc
    have := (List.subperm_of_subset hnodup hsub).length_le
    simpa using this
  have hOut : (recUniv.filter (fun kv => !contcond kv)).length =
      (unscoredOf scores meetings cp).length := by
    have hfe : recUniv.filter (fun kv => !contcond kv) =
        (statusMapOf meetings).filter
          (fun kv => kv.2 == some "RECRUITING" && !(r0.contains kv.1)) := by
      rw [hrecUniv, List.filter_filter]
      apply List.filter_congr
      intro kv _
      rw [hcont]
      cases hA : (kv.2 == some "RECRUITING") <;>
        cases hB : (r0.contains kv.1) <;> simp [hA, hB] <;> simpa using hB
    rw [hfe, unscoredOf_eq, List.length_map, hr0]
  omega

/-- In the backfill branch the outer `top_k` truncation never fires, so
Policy A returns the selected ids followed by the shuffled unscored
backfill, truncated to the missing count. -/
theorem select_eq_of_lt {shuffle : List Nat → List Nat} {scores : List (Nat × α)}
    {meetings : List Meeting} {top_k cp : Nat}
    (h0 : (recruitingIdsOf scores meetings cp).length < top_k) :
    select_recruiting_top_k shuffle scores meetings top_k cp =
      recruitingIdsOf scores meetings cp ++
        (shuffle (unscoredOf scores meetings cp)).take
          (top_k - (recruitingIdsOf scores meetings cp).length) := by
  simp only [select_recruiting_top_k, remainingOf_eq_nil, List.length_nil,
    Nat.add_zero, Nat.sub_zero, List.nil_append]
  rw [if_pos h0, if_pos h0]
  have hle : (recruitingIdsOf scores meetings cp ++
      (shuffle (unscoredOf scores meetings cp)).take
        (top_k - (recruitingIdsOf scores meetings cp).length)).length ≤ top_k := by
    rw [List.length_append, List.length_take]
    omega
  rw [if_neg (by omega)]

theorem select_eq_of_ge {shuffle : List Nat → List Nat} {scores : List (Nat × α)}
    {meetings : List Meeting} {top_k cp : Nat}
    (h0 : ¬ (recruitingIdsOf scores meetings cp).length < top_k) :
    select_recruiting_top_k shuffle scores meetings top_k cp =
      if top_k < (recruitingIdsOf scores meetings cp).length then
        (recruitingIdsOf scores meetings cp).take top_k
      else recruitingIdsOf scores meetings cp := by
  simp only [select_recruiting_top_k]
  rw [if_neg h0]


example :
    select_recruiting_top_k id [(1, (90 : Int)), (2, 85), (3, 95)]
      [⟨1, some "RECRUITING", some "A", none, none, none⟩,
       ⟨2, some "RECRUITING", some "B", none, none, none⟩,
       ⟨3, some "FINISHED", some "A", none, none, none⟩] 2 12 = [1, 2] := by
  decide

/-- Every id Policy B returns is the id of a RECRUITING meeting of the
input list (it comes from the status-filtered scored pool). -/
theorem rerank_mem_meetings {scores : List (Nat × α)} {meetings : List Meeting}
    {user_genres : List (Option String)} {top_k cp : Nat} {gb dp : α} {mid : Nat}
    (h : mid ∈ rerank_recruiting_with_genre_bonus scores meetings user_genres
      top_k cp gb dp) :
    ∃ m ∈ meetings, m.id = mid ∧ m.status = some "RECRUITING" := by
  rw [rerank_eq_greedy_sel] at h
  have hperm := greedyPick_perm (metaMapOf meetings) (userGenreSet user_genres)
    gb dp top_k (recruitingCandidates scores meetings cp) (fun _ => 0)
  have hmem : mid ∈ (recruitingCandidates scores meetings cp).map Prod.fst :=
    hperm.mem_iff.mp (List.mem_append_left _ h)
  rcases List.mem_map.mp hmem with ⟨pc, hpc, hfst⟩
  have hrec := (List.mem_filter.mp hpc).2
  rw [hfst] at hrec
  exact isRecruitingMeta_spec hrec

/-- Every id Policy B returns is a key of its scores argument. -/
theorem rerank_mem_scores {scores : List (Nat × α)} {meetings : List Meeting}
    {user_genres : List (Option String)} {top_k cp : Nat} {gb dp : α} {mid : Nat}
    (h : mid ∈ rerank_recruiting_with_genre_bonus scores meetings user_genres
      top_k cp gb dp) :
    mid ∈ scores.map Prod.fst := by
  rw [rerank_eq_greedy_sel] at h
  have hperm := greedyPick_perm (metaMapOf meetings) (userGenreSet user_genres)
    gb dp top_k (recruitingCandidates scores meetings cp) (fun _ => 0)
  have hmem : mid ∈ (recruitingCandidates scores meetings cp).map Prod.fst :=
    hperm.mem_iff.mp (List.mem_append_left _ h)
  rcases List.mem_map.mp hmem with ⟨pc, hpc, hfst⟩
  exact List.mem_map.mpr ⟨pc, mem_poolCandidates (List.mem_filter.mp hpc).1, hfst⟩

/-- Every id Policy A returns is the id of a RECRUITING meeting of the
input list. -/
theorem select_mem_meetings {shuffle : List Nat → List Nat}
    {scores : List (Nat × α)} {meetings : List Meeting} {top_k cp mid : Nat}
    (hshuffle : ∀ l, List.Perm (shuffle l) l)
    (h : mid ∈ select_recruiting_top_k shuffle scores meetings top_k cp) :
    ∃ m ∈ meetings, m.id = mid ∧ m.status = some "RECRUITING" := by
  by_cases h0 : (recruitingIdsOf scores meetings cp).length < top_k
  · rw [select_eq_of_lt h0] at h
    rcases List.mem_append.mp h with h1 | h1
    · exact isRecruitingB_spec (mem_recruitingIdsOf.mp h1).2
    · exact (mem_unscoredOf ((hshuffle _).mem_iff.mp (List.mem_of_mem_take h1))).1
  · rw [select_eq_of_ge h0] at h
    by_cases h1 : top_k < (recruitingIdsOf scores meetings cp).length
    · rw [if_pos h1] at h
      exact isRecruitingB_spec (mem_recruitingIdsOf.mp (List.mem_of_mem_take h)).2
    · rw [if_neg h1] at h
      exact isRecruitingB_spec (mem_recruitingIdsOf.mp h).2

theorem select_length_le {shuffle : List Nat → List Nat}
    {scores : List (Nat × α)} {meetings : List Meeting} {top_k cp : Nat} :
    (select_recruiting_top_k shuffle scores meetings top_k cp).length ≤ top_k := by
  by_cases h0 : (recruitingIdsOf scores meetings cp).length < top_k
  · rw [select_eq_of_lt h0, List.length_append, List.length_take]
    omega
  · rw [select_eq_of_ge h0]
    by_cases h1 : top_k < (recruitingIdsOf scores meetings cp).length
    · rw [if_pos h1, List.length_take]
      omega
    · rw [if_neg h1]
      omega

theorem select_nodup {shuffle : List Nat → List Nat} {scores : List (Nat × α)}
    {meetings : List Meeting} {top_k cp : Nat}
    (hshuffle : ∀ l, List.Perm (shuffle l) l)
    (hsc : (scores.map Prod.fst).Nodup) :
    (select_recruiting_top_k shuffle scores meetings top_k cp).Nodup := by
  by_cases h0 : (recruitingIdsOf scores meetings cp).length < top_k
  · rw [select_eq_of_lt h0]
    refine List.Nodup.append (recruitingIdsOf_nodup hsc) ?_ ?_
    · exact (List.take_sublist _ _).nodup
        ((hshuffle _).nodup_iff.mpr (unscoredOf_nodup scores meetings cp))
    · intro a ha hb
      have haun : a ∈ unscoredOf scores meetings cp :=
        (hshuffle _).mem_iff.mp (List.mem_of_mem_take hb)
      exact (mem_unscoredOf haun).2 ha
  · rw [select_eq_of_ge h0]
    by_cases h1 : top_k < (recruitingIdsOf scores meetings cp).length
    · rw [if_pos h1]
      exact (List.take_sublist _ _).nodup (recruitingIdsOf_nodup hsc)
    · rw [if_neg h1]
      exact recruitingIdsOf_nodup hsc

theorem rerank_length_eq {scores : List (Nat × α)} {meetings : List Meeting}
    {user_genres : List (Option String)} {top_k cp : Nat} {gb dp : α} :
    (rerank_recruiting_with_genre_bonus scores meetings user_genres top_k cp
      gb dp).length = min top_k (recruitingCandidates scores meetings cp).length := by
  rw [rerank_eq_greedy_sel]
  exact greedyPick_sel_length _ _ _ _ _ _ _

theorem rerank_nodup {scores : List (Nat × α)} {meetings : List Meeting}
    {user_genres : List (Option String)} {top_k cp : Nat} {gb dp : α}
    (hsc : (scores.map Prod.fst).Nodup) :
    (rerank_recruiting_with_genre_bonus scores meetings user_genres top_k cp
      gb dp).Nodup := by
  rw [rerank_eq_greedy_sel]
  have hperm := greedyPick_perm (metaMapOf meetings) (userGenreSet user_genres)
    gb dp top_k (recruitingCandidates scores meetings cp) (fun _ => 0)
  have hn : ((greedyPick (metaMapOf meetings) (userGenreSet user_genres) gb dp
      top_k (recruitingCandidates scores meetings cp) (fun _ => 0)).1 ++
      ((greedyPick (metaMapOf meetings) (userGenreSet user_genres) gb dp
      top_k (recruitingCandidates scores meetings cp) (fun _ => 0)).2.map
        Prod.fst)).Nodup :=
    hperm.nodup_iff.mpr (recruitingCandidates_keys_nodup hsc)
  exact hn.of_append_left

/-! ### Claim theorems -/

/-- C1: for every scores mapping and meetings list in which the meetings
with status RECRUITING number at least `top_k` (with
`candidate_pool ≥ top_k ≥ 0`, scores keyed by meeting ids, i.e. distinct
keys, and any permutation as the sampling shuffle), Policy A returns
exactly `top_k` pairwise-distinct meeting ids, each the id of a meeting
whose status is RECRUITING. -/
theorem select_recruiting_top_k_returns_top_k
    {shuffle : List Nat → List Nat} {scores : List (Nat × α)}
    {meetings : List Meeting} {top_k candidate_pool : Nat}
    (hshuffle : ∀ l, List.Perm (shuffle l) l)
    (hids : (meetings.map Meeting.id).Nodup)
    (hsc : (scores.map Prod.fst).Nodup)
    (hcount : top_k ≤ (meetings.filter (fun m => m.status == some "RECRUITING")).length)
    (hcp : top_k ≤ candidate_pool) :
    (select_recruiting_top_k shuffle scores meetings top_k candidate_pool).length = top_k ∧
    (select_recruiting_top_k shuffle scores meetings top_k candidate_pool).Nodup ∧
    ∀ mid ∈ select_recruiting_top_k shuffle scores meetings top_k candidate_pool,
      ∃ m ∈ meetings, m.id = mid ∧ m.status = some "RECRUITING" := by
  by_cases h0 : (recruitingIdsOf scores meetings candidate_pool).length < top_k
  · rw [select_eq_of_lt h0]
    have hcnt := recruiting_count_le scores meetings candidate_pool hids
    have hlenshuf : (shuffle (unscoredOf scores meetings candidate_pool)).length =
        (unscoredOf scores meetings candidate_pool).length :=
      (hshuffle _).length_eq
    have htake : ((shuffle (unscoredOf scores meetings candidate_pool)).take
        (top_k - (recruitingIdsOf scores meetings candidate_pool).length)).length =
        top_k - (recruitingIdsOf scores meetings candidate_pool).length := by
      rw [List.length_take]
      omega
    refine ⟨?_, ?_, ?_⟩
    · rw [List.length_append, htake]
      omega
    · refine List.Nodup.append (recruitingIdsOf_nodup hsc) ?_ ?_
      · exact ((List.take_sublist _ _).nodup
          ((hshuffle _).nodup_iff.mpr (unscoredOf_nodup scores meetings candidate_pool)))
      · intro a ha hb
        have haun : a ∈ unscoredOf scores meetings candidate_pool :=
          (hshuffle _).mem_iff.mp (List.mem_of_mem_take hb)
        exact (mem_unscoredOf haun).2 ha
    · intro mid hmid
      rcases List.mem_append.mp hmid with h | h
      · exact isRecruitingB_spec (mem_recruitingIdsOf.mp h).2
      · exact (mem_unscoredOf ((hshuffle _).mem_iff.mp (List.mem_of_mem_take h))).1
  · rw [select_eq_of_ge h0]
    by_cases h1 : top_k < (recruitingIdsOf scores meetings candidate_pool).length
    · rw [if_pos h1]
      refine ⟨?_, ?_, ?_⟩
      · rw [List.length_take]
        omega
      · exact (List.take_sublist _ _).nodup (recruitingIdsOf_nodup hsc)
      · intro mid hmid
        exact isRecruitingB_spec (mem_recruitingIdsOf.mp (List.mem_of_mem_take hmid)).2
    · rw [if_neg h1]
      refine ⟨by omega, recruitingIdsOf_nodup hsc, ?_⟩
      intro mid hmid
      exact isRecruitingB_spec (mem_recruitingIdsOf.mp hmid).2

/-- Witness for C1 at a concrete input (the §8 example of the spec, scores
in hundredths): two RECRUITING meetings, `top_k = 2`, identity shuffle. -/
theorem select_recruiting_top_k_returns_top_k_witness :
    (select_recruiting_top_k id [(1, (90 : Int)), (2, 85), (3, 95)]
      [⟨1, some "RECRUITING", some "A", none, none, none⟩,
       ⟨2, some "RECRUITING", some "B", none, none, none⟩,
       ⟨3, some "FINISHED", some "A", none, none, none⟩] 2 12).length = 2 ∧
    (select_recruiting_top_k id [(1, (90 : Int)), (2, 85), (3, 95)]
      [⟨1, some "RECRUITING", some "A", none, none, none⟩,
       ⟨2, some "RECRUITING", some "B", none, none, none⟩,
       ⟨3, some "FINISHED", some "A", none, none, none⟩] 2 12).Nodup ∧
    ∀ mid ∈ select_recruiting_top_k id [(1, (90 : Int)), (2, 85), (3, 95)]
      [⟨1, some "RECRUITING", some "A", none, none, none⟩,
       ⟨2, some "RECRUITING", some "B", none, none, none⟩,
       ⟨3, some "FINISHED", some "A", none, none, none⟩] 2 12,
      ∃ m ∈ [(⟨1, some "RECRUITING", some "A", none, none, none⟩ : Meeting),
             ⟨2, some "RECRUITING", some "B", none, none, none⟩,
             ⟨3, some "FINISHED", some "A", none, none, none⟩],
        m.id = mid ∧ m.status = some "RECRUITING" :=
  select_recruiting_top_k_returns_top_k (fun l => List.Perm.refl l)
    (by decide) (by decide) (by decide) (by decide)

/-- C10: for every scores mapping (distinct keys), meetings list and
parameters with `top_k ≥ 0` (automatic for `Nat`), both Policy A and
Policy B return a list of length at most `top_k` in which no meeting id
occurs twice — for all inputs, not only when enough RECRUITING meetings
exist. -/
theorem policies_length_le_and_nodup
    {shuffle : List Nat → List Nat} {scores : List (Nat × α)}
    {meetings : List Meeting} {user_genres : List (Option String)}
    {top_k candidate_pool : Nat} {genre_bonus duplicate_penalty : α}
    (hshuffle : ∀ l, List.Perm (shuffle l) l)
    (hsc : (scores.map Prod.fst).Nodup) :
    (select_recruiting_top_k shuffle scores meetings top_k candidate_pool).length ≤ top_k ∧
    (select_recruiting_top_k shuffle scores meetings top_k candidate_pool).Nodup ∧
    (rerank_recruiting_with_genre_bonus scores meetings user_genres top_k
      candidate_pool genre_bonus duplicate_penalty).length ≤ top_k ∧
    (rerank_recruiting_with_genre_bonus scores meetings user_genres top_k
      candidate_pool genre_bonus duplicate_penalty).Nodup := by
  refine ⟨select_length_le, select_nodup hshuffle hsc, ?_, rerank_nodup hsc⟩
  rw [rerank_length_eq]
  omega

/-- Witness for C10 at a concrete input with a short pool, identity
shuffle and integer scores. -/
theorem policies_length_le_and_nodup_witness :
    (select_recruiting_top_k id [(1, (90 : Int)), (2, 85), (3, 95)]
      [⟨1, some "RECRUITING", some "A", none, none, none⟩,
       ⟨2, some "RECRUITING", some "B", none, none, none⟩,
       ⟨3, some "FINISHED", some "A", none, none, none⟩] 4 2).length ≤ 4 ∧
    (select_recruiting_top_k id [(1, (90 : Int)), (2, 85), (3, 95)]
      [⟨1, some "RECRUITING", some "A", none, none, none⟩,
       ⟨2, some "RECRUITING", some "B", none, none, none⟩,
       ⟨3, some "FINISHED", some "A", none, none, none⟩] 4 2).Nodup ∧
    (rerank_recruiting_with_genre_bonus [(1, (90 : Int)), (2, 85), (3, 95)]
      [⟨1, some "RECRUITING", some "A", none, none, none⟩,
       ⟨2, some "RECRUITING", some "B", none, none, none⟩,
       ⟨3, some "FINISHED", some "A", none, none, none⟩]
      [some "B"] 4 2 10 7).length ≤ 4 ∧
    (rerank_recruiting_with_genre_bonus [(1, (90 : Int)), (2, 85), (3, 95)]
      [⟨1, some "RECRUITING", some "A", none, none, none⟩,
       ⟨2, some "RECRUITING", some "B", none, none, none⟩,
       ⟨3, some "FINISHED", some "A", none, none, none⟩]
      [some "B"] 4 2 10 7).Nodup :=
  policies_length_le_and_nodup (fun l => List.Perm.refl l) (by decide)

/-- C4: for every scores mapping, meetings list, preferred-genre set and
parameter values, every meeting id returned by Policy A and every meeting
id returned by Policy B is the id of some meeting present in the given
meetings list. -/
theorem policies_ids_subset_meetings
    {shuffle : List Nat → List Nat} {scores : List (Nat × α)}
    {meetings : List Meeting} {user_genres : List (Option String)}
    {top_k candidate_pool : Nat} {genre_bonus duplicate_penalty : α}
    (hshuffle : ∀ l, List.Perm (shuffle l) l) :
    (∀ mid ∈ select_recruiting_top_k shuffle scores meetings top_k candidate_pool,
      ∃ m ∈ meetings, m.id = mid) ∧
    (∀ mid ∈ rerank_recruiting_with_genre_bonus scores meetings user_genres
        top_k candidate_pool genre_bonus duplicate_penalty,
      ∃ m ∈ meetings, m.id = mid) := by
  constructor
  · intro mid hmid
    rcases select_mem_meetings hshuffle hmid with ⟨m, hm, hid, _⟩
    exact ⟨m, hm, hid⟩
  · intro mid hmid
    rcases rerank_mem_meetings hmid with ⟨m, hm, hid, _⟩
    exact ⟨m, hm, hid⟩

/-- Witness for C4 at a concrete input (identity shuffle): the backfill
path of Policy A is exercised because the scores are empty. -/
theorem policies_ids_subset_meetings_witness :
    (∀ mid ∈ select_recruiting_top_k id ([] : List (Nat × Int))
        [⟨1, some "RECRUITING", some "A", none, none, none⟩,
         ⟨2, some "FINISHED", some "B", none, none, none⟩] 1 4,
      ∃ m ∈ [(⟨1, some "RECRUITING", some "A", none, none, none⟩ : Meeting),
             ⟨2, some "FINISHED", some "B", none, none, none⟩], m.id = mid) ∧
    (∀ mid ∈ rerank_recruiting_with_genre_bonus ([(1, (3 : Int))])
        [⟨1, some "RECRUITING", some "A", none, none, none⟩,
         ⟨2, some "FINISHED", some "B", none, none, none⟩] [] 1 4 10 7,
      ∃ m ∈ [(⟨1, some "RECRUITING", some "A", none, none, none⟩ : Meeting),
             ⟨2, some "FINISHED", some "B", none, none, none⟩], m.id = mid) :=
  ⟨(@policies_ids_subset_meetings Int _ id []
      [⟨1, some "RECRUITING", some "A", none, none, none⟩,
       ⟨2, some "FINISHED", some "B", none, none, none⟩] [] 1 4 10 7
      (fun l => List.Perm.refl l)).1,
   (@policies_ids_subset_meetings Int _ id [(1, 3)]
      [⟨1, some "RECRUITING", some "A", none, none, none⟩,
       ⟨2, some "FINISHED", some "B", none, none, none⟩] [] 1 4 10 7
      (fun l => List.Perm.refl l)).2⟩

/-- C2 counterexample: two RECRUITING meetings and an empty scores mapping
with `top_k = candidate_pool = 2`. The meetings list has `top_k` RECRUITING
meetings, yet Policy B returns the empty list — it does not backfill with
RECRUITING meetings absent from the scored pool — while Policy A on the
same input does backfill and returns both ids. -/
theorem rerank_backfill_counterexample :
    (([(⟨1, some "RECRUITING", some "A", none, none, none⟩ : Meeting),
       ⟨2, some "RECRUITING", some "B", none, none, none⟩].filter
        (fun m => m.status == some "RECRUITING")).length = 2) ∧
    rerank_recruiting_with_genre_bonus ([] : List (Nat × Int))
      [⟨1, some "RECRUITING", some "A", none, none, none⟩,
       ⟨2, some "RECRUITING", some "B", none, none, none⟩] [] 2 2 10 7 = [] ∧
    (rerank_recruiting_with_genre_bonus ([] : List (Nat × Int))
      [⟨1, some "RECRUITING", some "A", none, none, none⟩,
       ⟨2, some "RECRUITING", some "B", none, none, none⟩] [] 2 2 10 7).length ≠ 2 ∧
    select_recruiting_top_k id ([] : List (Nat × Int))
      [⟨1, some "RECRUITING", some "A", none, none, none⟩,
       ⟨2, some "RECRUITING", some "B", none, none, none⟩] 2 2 = [1, 2] := by
  decide

/-- C2 amended: Policy B never backfills from outside the scored pool. For
every input it returns exactly `min top_k c` ids, where `c` is the number
of RECRUITING candidates in the truncated scored pool, and every returned
id is a key of the scores mapping — so when the scored RECRUITING
candidates run short the result is shorter than `top_k` and unscored
RECRUITING meetings never appear. -/
theorem rerank_no_unscored_backfill
    {scores : List (Nat × α)} {meetings : List Meeting}
    {user_genres : List (Option String)} {top_k candidate_pool : Nat}
    {genre_bonus duplicate_penalty : α} :
    (rerank_recruiting_with_genre_bonus scores meetings user_genres top_k
      candidate_pool genre_bonus duplicate_penalty).length =
      min top_k (recruitingCandidates scores meetings candidate_pool).length ∧
    ∀ mid ∈ rerank_recruiting_with_genre_bonus scores meetings user_genres top_k
      candidate_pool genre_bonus duplicate_penalty, mid ∈ scores.map Prod.fst :=
  ⟨rerank_length_eq, fun _ h => rerank_mem_scores h⟩

theorem adjScore_empty_gset (mm : List (Nat × Meeting)) (gb1 gb2 dp : α)
    (counts : String → Nat) (p : Nat × α) :
    adjScore mm [] gb1 dp counts p = adjScore mm [] gb2 dp counts p := by
  unfold adjScore
  cases hg : metaGenre mm p.1 <;> simp [genreInSet, hg]

theorem greedyPick_empty_gset (mm : List (Nat × Meeting)) (gb1 gb2 dp : α) :
    ∀ (n : Nat) (cands : List (Nat × α)) (counts : String → Nat),
      greedyPick mm [] gb1 dp n cands counts = greedyPick mm [] gb2 dp n cands counts
  | 0, _, _ => rfl
  | n + 1, cands, counts => by
    have hf : adjScore mm [] gb1 dp counts = adjScore mm [] gb2 dp counts :=
      funext (adjScore_empty_gset mm gb1 gb2 dp counts)
    simp only [greedyPick, hf]
    cases hmatch : argmaxFirst (adjScore mm [] gb2 dp counts) cands with
    | none => rfl
    | some ix =>
      obtain ⟨i, mid, s⟩ := ix
      exact congrArg (fun r => (mid :: r.1, r.2))
        (greedyPick_empty_gset mm gb1 gb2 dp n (cands.eraseIdx i)
          (fun t => if t = pyStr (metaGenre mm mid) then counts t + 1 else counts t))

/-- C6: if the user's preferred-genre set is empty (`user_genres` contains
no non-`None` element), the output of Policy B is identical for any two
values of `genre_bonus`: the bonus never applies and the ranking reduces
to similarity plus diversity penalty. -/
theorem rerank_genre_bonus_irrelevant_when_no_genres
    {scores : List (Nat × α)} {meetings : List Meeting}
    {user_genres : List (Option String)} {top_k candidate_pool : Nat}
    {genre_bonus1 genre_bonus2 duplicate_penalty : α}
    (h : ∀ g ∈ user_genres, g = none) :
    rerank_recruiting_with_genre_bonus scores meetings user_genres top_k
      candidate_pool genre_bonus1 duplicate_penalty =
    rerank_recruiting_with_genre_bonus scores meetings user_genres top_k
      candidate_pool genre_bonus2 duplicate_penalty := by
  have hset : userGenreSet user_genres = [] := by
    unfold userGenreSet
    rw [List.filterMap_eq_nil_iff]
    intro g hg
    rw [h g hg]
  rw [rerank_eq_greedy_sel, rerank_eq_greedy_sel, hset,
    greedyPick_empty_gset (metaMapOf meetings) genre_bonus1 genre_bonus2
      duplicate_penalty top_k (recruitingCandidates scores meetings candidate_pool)
      (fun _ => 0)]

/-- Witness for C6: a `user_genres` list consisting of a single `None`,
with two very different bonus values. -/
theorem rerank_genre_bonus_irrelevant_when_no_genres_witness :
    rerank_recruiting_with_genre_bonus [(1, (90 : Int)), (2, 85), (3, 95)]
      [⟨1, some "RECRUITING", some "A", none, none, none⟩,
       ⟨2, some "RECRUITING", some "B", none, none, none⟩,
       ⟨3, some "FINISHED", some "A", none, none, none⟩]
      [none] 2 20 10 7 =
    rerank_recruiting_with_genre_bonus [(1, (90 : Int)), (2, 85), (3, 95)]
      [⟨1, some "RECRUITING", some "A", none, none, none⟩,
       ⟨2, some "RECRUITING", some "B", none, none, none⟩,
       ⟨3, some "FINISHED", some "A", none, none, none⟩]
      [none] 2 20 500 7 :=
  rerank_genre_bonus_irrelevant_when_no_genres (by decide)

/-- C3 (code bug): the per-user loop of `generate_rows` calls
`rerank_recruiting_with_genre_bonus` with the keyword argument `user_id=`,
which the function does not declare (recommender.py:205-214), so the call
raises `TypeError` as soon as one user is processed: for every non-empty
users list, `generate_rows` fails instead of returning rows and timing
metadata. -/
theorem generate_rows_raises_type_error
    {top_k search_k : Nat} {meetings : List Meeting} {users : List BatchUser}
    {search : BatchUser → List (Nat × Int)} {week_start_date : String}
    {embed_meeting_ms embed_user_ms : Nat} (h : users ≠ []) :
    generate_rows top_k search_k meetings users search week_start_date
      embed_meeting_ms embed_user_ms = Except.error unexpectedKwError := by
  cases users with
  | nil => exact absurd rfl h
  | cons u us =>
    have hcall : ∀ (sc : List (Nat × Int)) (ug : List (Option String)),
        callRerank generateRowsKwArgs sc meetings ug top_k search_k
          defaultGenreBonus defaultDuplicatePenalty =
          Except.error unexpectedKwError := by
      intro sc ug
      unfold callRerank
      rw [if_neg]
      intro hall
      exact absurd hall (by decide)
    unfold generate_rows genRowsLoop
    simp only [hcall]

/-- Witness for C3: one meeting, one user, empty search results. -/
theorem generate_rows_raises_type_error_witness :
    generate_rows 4 20 [⟨1, some "RECRUITING", some "A", none, none, none⟩]
      [⟨7, [], []⟩] (fun _ => []) "2026-01-05" 3 4 =
      Except.error unexpectedKwError :=
  generate_rows_raises_type_error (by simp)

/-- C5: a `generate_from_db` call with `search_k < top_k` fails with the
configuration error before any computation: the result is the bare error
and the effect trace is empty — no fetch, no embedding or search, no
upsert. -/
theorem generate_from_db_config_error
    {top_k search_k : Nat} {fetchedMeetings : List Meeting}
    {fetchedUsers : List BatchUser} {search : BatchUser → List (Nat × Int)}
    {week_start_date : String} {embed_meeting_ms embed_user_ms : Nat}
    {persist : Bool} {upsertCount : List Row → Nat} (h : search_k < top_k) :
    generate_from_db top_k search_k fetchedMeetings fetchedUsers search
      week_start_date embed_meeting_ms embed_user_ms persist upsertCount =
      (Except.error "search_k must be >= top_k", []) := by
  unfold generate_from_db
  rw [if_pos h]

/-- Witness for C5: `top_k = 4`, `search_k = 2`. -/
theorem generate_from_db_config_error_witness :
    generate_from_db 4 2 [⟨1, some "RECRUITING", some "A", none, none, none⟩]
      [⟨7, [], []⟩] (fun _ => []) "2026-01-05" 3 4 true List.length =
      (Except.error "search_k must be >= top_k", []) :=
  generate_from_db_config_error (by decide)

/-- C9: the per-user pipeline of `generate_rows` (weekly_batch.py:119-133)
filters out of the score dict every meeting whose `leader_user_id` equals
the requesting user's id before re-ranking; since Policy B only returns
ids present in its scores argument, every meeting id it can emit for that
user has a `leader_user_id` that is null (or missing) or differs from the
user's id. -/
theorem rerank_owner_filtered_excludes_own
    {meetings : List Meeting} {uid : Nat} {rawScores : List (Nat × Int)}
    {user_genres : List (Option String)} {top_k candidate_pool : Nat}
    {genre_bonus duplicate_penalty : Int} {mid : Nat}
    (h : mid ∈ rerank_recruiting_with_genre_bonus
      (ownerFilteredScores meetings uid (pyDictOfList rawScores)) meetings
      user_genres top_k candidate_pool genre_bonus duplicate_penalty) :
    ownerGet meetings mid = none ∨ ownerGet meetings mid ≠ some uid := by
  have hmem : mid ∈ (ownerFilteredScores meetings uid
      (pyDictOfList rawScores)).map Prod.fst := rerank_mem_scores h
  rcases List.mem_map.mp hmem with ⟨p, hp, hfst⟩
  have hc := (List.mem_filter.mp hp).2
  subst hfst
  cases ho : ownerGet meetings p.1 with
  | none => exact Or.inl rfl
  | some owner =>
    right
    rw [ho] at hc
    simp only [decide_eq_true_eq] at hc
    intro heq
    injection heq with heq'
    exact hc heq'

/-- Witness for C9: a meeting led by user 5 and one with no leader, scored
for user 1; the output contains meeting 2 and the theorem applies to it. -/
theorem rerank_owner_filtered_excludes_own_witness :
    ownerGet [(⟨2, some "RECRUITING", some "A", none, none, some 5⟩ : Meeting)] 2 = none ∨
    ownerGet [(⟨2, some "RECRUITING", some "A", none, none, some 5⟩ : Meeting)] 2 ≠ some 1 :=
  @rerank_owner_filtered_excludes_own
    [⟨2, some "RECRUITING", some "A", none, none, some 5⟩] 1 [(2, 3)]
    [] 1 4 10 7 2 (by decide)

theorem insAsc_perm {β : Type} [LinearOrder β] (x : β) :
    ∀ l : List β, List.Perm (insAsc x l) (x :: l)
  | [] => List.Perm.refl _
  | y :: ys => by
    simp only [insAsc]
    split
    · exact ((insAsc_perm x ys).cons y).trans (List.Perm.swap x y ys)
    · exact List.Perm.refl _

theorem pySortAsc_perm {β : Type} [LinearOrder β] :
    ∀ l : List β, List.Perm (pySortAsc l) l
  | [] => List.Perm.refl _
  | x :: xs => (insAsc_perm x (pySortAsc xs)).trans ((pySortAsc_perm xs).cons x)

theorem insAsc_sorted {β : Type} [LinearOrder β] (x : β) :
    ∀ {l : List β}, l.Sorted (· ≤ ·) → (insAsc x l).Sorted (· ≤ ·)
  | [], _ => by simp [insAsc]
  | y :: ys, h => by
    rw [List.sorted_cons] at h
    simp only [insAsc]
    split
    · rename_i hlt
      rw [List.sorted_cons]
      refine ⟨?_, insAsc_sorted x h.2⟩
      intro b hb
      rcases List.mem_cons.mp ((insAsc_perm x ys).mem_iff.mp hb) with hb1 | hb1
      · exact hb1 ▸ hlt.le
      · exact h.1 b hb1
    · rename_i hnlt
      have hxy : x ≤ y := le_of_not_lt hnlt
      rw [List.sorted_cons]
      refine ⟨?_, List.sorted_cons.mpr h⟩
      intro b hb
      rcases List.mem_cons.mp hb with hb1 | hb1
      · exact hb1 ▸ hxy
      · exact le_trans hxy (h.1 b hb1)

theorem pySortAsc_sorted {β : Type} [LinearOrder β] :
    ∀ l : List β, (pySortAsc l).Sorted (· ≤ ·)
  | [] => by simp [pySortAsc]
  | x :: xs => insAsc_sorted x (pySortAsc_sorted xs)

/-- Python `sorted` depends only on the multiset of its input: permuting
the input leaves the sorted list unchanged. -/
theorem pySortAsc_eq_of_perm {β : Type} [LinearOrder β] {l l2 : List β}
    (h : List.Perm l l2) : pySortAsc l = pySortAsc l2 :=
  List.eq_of_perm_of_sorted
    ((pySortAsc_perm l).trans (h.trans (pySortAsc_perm l2).symm))
    (pySortAsc_sorted l) (pySortAsc_sorted l2)

/-- C7: `build_user_query` is invariant under reordering of its
multi-valued fields: two user records with the same effective volume whose
effective purpose-code lists and preferred-genre-code lists are
permutations of each other yield the same query string (in particular,
permuting a record's own lists leaves the output unchanged). -/
theorem build_user_query_perm_invariant {β : Type} [LinearOrder β]
    (reprCode : β → String) (u v : UserProfile β)
    (hv : effVolume u = effVolume v)
    (hp : List.Perm (effPurposes u) (effPurposes v))
    (hg : List.Perm (effGenres u) (effGenres v)) :
    build_user_query reprCode u = build_user_query reprCode v := by
  simp only [build_user_query]
  rw [hv, pySortAsc_eq_of_perm hp, pySortAsc_eq_of_perm hg]

/-- Witness for C7: swapping the order of the purpose codes and of the
genre codes leaves the query unchanged. -/
theorem build_user_query_perm_invariant_witness :
    build_user_query toString
      (⟨some "M3", none, none, [2, 1], [], [], [9, 4], [], []⟩ : UserProfile Nat) =
    build_user_query toString
      (⟨some "M3", none, none, [1, 2], [], [], [4, 9], [], []⟩ : UserProfile Nat) :=
  build_user_query_perm_invariant toString _ _ (by decide) (by decide) (by decide)

theorem rowsForUser_map_rank (uid : Nat) (wsd : String) (mids : List Nat) :
    (rowsForUser uid wsd mids).map Row.rank = List.range' 1 mids.length := by
  unfold rowsForUser
  rw [List.map_map]
  exact List.enumFrom_map_fst 1 mids

theorem rowsForUser_fields {uid : Nat} {wsd : String} {mids : List Nat} {r : Row}
    (h : r ∈ rowsForUser uid wsd mids) :
    r.user_id = uid ∧ r.week_start_date = wsd := by
  unfold rowsForUser at h
  rcases List.mem_map.mp h with ⟨pq, _, hpq⟩
  rw [← hpq]
  exact ⟨rfl, rfl⟩

theorem filter_rowsForUser_self (uid : Nat) (wsd : String) (mids : List Nat) :
    (rowsForUser uid wsd mids).filter (fun r => r.user_id == uid) =
      rowsForUser uid wsd mids := by
  rw [List.filter_eq_self]
  intro r hr
  rw [(rowsForUser_fields hr).1]
  simp

theorem filter_rowsForUser_other {uid uid2 : Nat} (wsd : String) (mids : List Nat)
    (hne : uid ≠ uid2) :
    (rowsForUser uid wsd mids).filter (fun r => r.user_id == uid2) = [] := by
  rw [List.filter_eq_nil_iff]
  intro r hr
  rw [(rowsForUser_fields hr).1]
  simp [hne]

theorem build_rows_cons (shuffle : List Nat → List Nat) (meetings : List Meeting)
    (v : BatchUser) (vs : List BatchUser) (search : BatchUser → List (Nat × Int))
    (start_date : String) (top_k search_k : Nat) :
    build_rows shuffle meetings (v :: vs) search start_date top_k search_k =
      rowsForUser v.user_id start_date
        (select_recruiting_top_k shuffle (pyDictOfList (search v)) meetings
          top_k search_k) ++
      build_rows shuffle meetings vs search start_date top_k search_k := by
  unfold build_rows
  rw [List.flatMap_cons]

theorem build_rows_filter_not_mem {shuffle : List Nat → List Nat}
    {meetings : List Meeting} {search : BatchUser → List (Nat × Int)}
    {start_date : String} {top_k search_k : Nat} :
    ∀ (users : List BatchUser) (uid : Nat), uid ∉ users.map BatchUser.user_id →
    (build_rows shuffle meetings users search start_date top_k search_k).filter
      (fun r => r.user_id == uid) = []
  | [], _, _ => rfl
  | v :: vs, uid, h => by
    have hne : v.user_id ≠ uid := by
      intro he
      exact h (List.mem_map.mpr ⟨v, List.mem_cons_self _ _, he⟩)
    have hrest : uid ∉ vs.map BatchUser.user_id := by
      intro he
      exact h (List.mem_cons_of_mem _ he)
    rw [build_rows_cons, List.filter_append,
      build_rows_filter_not_mem vs uid hrest,
      filter_rowsForUser_other start_date _ hne]
    rfl

/-- With pairwise-distinct user ids, the rows carrying a given user's id
are exactly that user's own block, in order. -/
theorem build_rows_filter_eq {shuffle : List Nat → List Nat}
    {meetings : List Meeting} {search : BatchUser → List (Nat × Int)}
    {start_date : String} {top_k search_k : Nat} :
    ∀ (users : List BatchUser) (u : BatchUser), u ∈ users →
      (users.map BatchUser.user_id).Nodup →
      (build_rows shuffle meetings users search start_date top_k search_k).filter
        (fun r => r.user_id == u.user_id) =
      rowsForUser u.user_id start_date
        (select_recruiting_top_k shuffle (pyDictOfList (search u)) meetings
          top_k search_k)
  | [], u, hu, _ => absurd hu (by simp)
  | v :: vs, u, hu, hN => by
    have hN' : v.user_id ∉ vs.map BatchUser.user_id ∧
        (vs.map BatchUser.user_id).Nodup := by
      simpa [List.nodup_cons] using hN
    rw [build_rows_cons, List.filter_append]
    rcases List.mem_cons.mp hu with rfl | hu2
    · rw [filter_rowsForUser_self,
        build_rows_filter_not_mem vs u.user_id hN'.1, List.append_nil]
    · have hne : v.user_id ≠ u.user_id := by
        intro he
        exact hN'.1 (he ▸ List.mem_map.mpr ⟨u, hu2, rfl⟩)
      rw [filter_rowsForUser_other start_date _ hne, List.nil_append]
      exact build_rows_filter_eq vs u hu2 hN'.2

/-- C8: every row assembled by a batch run carries the single run-wide
`week_start_date`, and each user's rank sequence is exactly `1..n` in
output order (no gaps, no duplicates), where `n` is the number of ids the
selector returned for that user. -/
theorem build_rows_ranks_contiguous {shuffle : List Nat → List Nat}
    {meetings : List Meeting} {users : List BatchUser}
    {search : BatchUser → List (Nat × Int)} {start_date : String}
    {top_k search_k : Nat}
    (hN : (users.map BatchUser.user_id).Nodup) :
    (∀ r ∈ build_rows shuffle meetings users search start_date top_k search_k,
      r.week_start_date = start_date) ∧
    ∀ u ∈ users,
      ((build_rows shuffle meetings users search start_date top_k search_k).filter
        (fun r => r.user_id == u.user_id)).map Row.rank =
      List.range' 1 (select_recruiting_top_k shuffle (pyDictOfList (search u))
        meetings top_k search_k).length := by
  constructor
  · intro r hr
    unfold build_rows at hr
    rcases List.mem_flatMap.mp hr with ⟨u, _, hru⟩
    exact (rowsForUser_fields hru).2
  · intro u hu
    rw [build_rows_filter_eq users u hu hN, rowsForUser_map_rank]

/-- Witness for C8: two users, one RECRUITING meeting. -/
theorem build_rows_ranks_contiguous_witness :
    (∀ r ∈ build_rows id [⟨1, some "RECRUITING", some "A", none, none, none⟩]
        [⟨1, [], []⟩, ⟨2, [], []⟩] (fun _ => [(1, 3)]) "2026-01-05" 4 20,
      r.week_start_date = "2026-01-05") ∧
    ∀ u ∈ [(⟨1, [], []⟩ : BatchUser), ⟨2, [], []⟩],
      ((build_rows id [⟨1, some "RECRUITING", some "A", none, none, none⟩]
        [⟨1, [], []⟩, ⟨2, [], []⟩] (fun _ => [(1, 3)]) "2026-01-05" 4 20).filter
          (fun r => r.user_id == u.user_id)).map Row.rank =
      List.range' 1 (select_recruiting_top_k id
        (pyDictOfList [(1, (3 : Int))])
        [⟨1, some "RECRUITING", some "A", none, none, none⟩] 4 20).length :=
  build_rows_ranks_contiguous (by decide)
